import Mathlib

/-!
Verification of the MINDSCAN sampling/streaming sketches.

The development shallowly embeds the drift-compensated fixed-rate sampler
(the final sketch of src/unnamed/part_002), its binary little-endian
encoder, the timestamped text-line encoder (the first sketch of
src/unnamed/part_002), and the startup configuration step.  Machine
integers are modelled as `Nat`; where 32-bit wraparound matters a separate
model reduces modulo 2^32.
-/

/-- State of the drift-compensated scheduler: the two globals of the final
sketch of src/unnamed/part_002 (`samplingInterval`, `nextSampleTime`). -/
structure SchedState where
  samplingInterval : Nat
  nextSampleTime : Nat
deriving DecidableEq, Repr

/-- One pass of `loop()` from the drift-compensated sketch
(src/unnamed/part_002, lines 128-147), with instants as unbounded naturals:
if `currentTime >= nextSampleTime` it emits one sample, advances
`nextSampleTime += samplingInterval`, and then, if
`currentTime > nextSampleTime`, resynchronizes
`nextSampleTime = currentTime + samplingInterval`.  Returns whether a
sample was emitted together with the new state. -/
def tick (s : SchedState) (now : Nat) : Bool × SchedState :=
  if s.nextSampleTime ≤ now then
    (true, ⟨s.samplingInterval,
      if s.nextSampleTime + s.samplingInterval < now then
        now + s.samplingInterval
      else
        s.nextSampleTime + s.samplingInterval⟩)
  else
    (false, s)

/-- The `setup()` of the drift-compensated sketch (src/unnamed/part_002,
lines 122-126): derives `samplingInterval = 1000000 / samplingFrequency`
and initializes `nextSampleTime = micros()`; `t0` models the value of
`micros()` at startup.  No validation of any kind is performed. -/
def setup (f : Nat) (t0 : Nat) : SchedState :=
  ⟨1000000 / f, t0⟩

/-- Folding `tick` over a list of poll instants: the final state. -/
def run (s : SchedState) : List Nat → SchedState
  | [] => s
  | n :: ns => run (tick s n).2 ns

/-- Folding `tick` over a list of poll instants: how many samples were
emitted. -/
def runCount (s : SchedState) : List Nat → Nat
  | [] => 0
  | n :: ns => (if (tick s n).1 then 1 else 0) + runCount (tick s n).2 ns

/-- Folding `tick` over a list of poll instants: the deadlines consumed,
i.e. the value of `nextSampleTime` at each emitting tick, in order. -/
def consumedDeadlines (s : SchedState) : List Nat → List Nat
  | [] => []
  | n :: ns =>
    if (tick s n).1 then s.nextSampleTime :: consumedDeadlines (tick s n).2 ns
    else consumedDeadlines (tick s n).2 ns

/-- C10: implicit tick postcondition.  After any single `tick s now` the
resulting `nextSampleTime` is at least `now` (the deadline is never left in
the past), and the due test is exact: a sample is emitted precisely when
`nextSampleTime ≤ now`, so each poll emits at most the one sample `tick`
can return. -/
theorem tick_deadline_not_past (s : SchedState) (now : Nat) :
    now ≤ (tick s now).2.nextSampleTime ∧
    ((tick s now).1 = true ↔ s.nextSampleTime ≤ now) := by
  by_cases h : s.nextSampleTime ≤ now
  · by_cases h2 : s.nextSampleTime + s.samplingInterval < now <;>
      simp [tick, h, h2] <;> omega
  · simp [tick, h]
    omega

/-- C1: drift/overrun policy.  Whenever a tick is due (`nextSampleTime ≤
now`) it emits, and the new deadline is `now + samplingInterval` when the
current time has already passed the advanced deadline
`nextSampleTime + samplingInterval` (equivalently, `now` is more than one
interval past the serviced deadline: `samplingInterval < now -
nextSampleTime`), and otherwise keeps the advanced value. -/
theorem tick_drift_policy (s : SchedState) (now : Nat)
    (h : s.nextSampleTime ≤ now) :
    (tick s now).1 = true ∧
    (tick s now).2.nextSampleTime =
      (if s.nextSampleTime + s.samplingInterval < now
        then now + s.samplingInterval
        else s.nextSampleTime + s.samplingInterval) ∧
    (s.nextSampleTime + s.samplingInterval < now ↔
      s.samplingInterval < now - s.nextSampleTime) := by
  refine ⟨?_, ?_, by omega⟩ <;> simp [tick, h]

/-- Witness for `tick_drift_policy` at interval 200, deadline 200,
now 1200. -/
theorem tick_drift_policy_witness :
    (⟨200, 200⟩ : SchedState).nextSampleTime ≤ 1200 ∧
    ((tick ⟨200, 200⟩ 1200).1 = true ∧
    (tick ⟨200, 200⟩ 1200).2.nextSampleTime =
      (if (⟨200, 200⟩ : SchedState).nextSampleTime +
          (⟨200, 200⟩ : SchedState).samplingInterval < 1200
        then 1200 + (⟨200, 200⟩ : SchedState).samplingInterval
        else (⟨200, 200⟩ : SchedState).nextSampleTime +
          (⟨200, 200⟩ : SchedState).samplingInterval) ∧
    ((⟨200, 200⟩ : SchedState).nextSampleTime +
        (⟨200, 200⟩ : SchedState).samplingInterval < 1200 ↔
      (⟨200, 200⟩ : SchedState).samplingInterval <
        1200 - (⟨200, 200⟩ : SchedState).nextSampleTime)) :=
  ⟨by decide, tick_drift_policy ⟨200, 200⟩ 1200 (by decide)⟩

/-- C2 counterexample.  Interval 200, initial deadline 200: a sample is
emitted on time at `now = 200` (consuming deadline 200, advancing to 400),
and the iteration then takes 300 µs — more than one full interval — so the
next poll is at `now = 500`.  The claim demands that this overrun
resynchronize the deadline to `now + interval = 700`; the code merely
advances it to 600 and drops nothing. -/
theorem overrun_not_always_resynced :
    runCount ⟨200, 200⟩ [200, 500] = 2 ∧
    run ⟨200, 200⟩ [200, 500] = ⟨200, 600⟩ ∧
    ¬ (run ⟨200, 200⟩ [200, 500]).nextSampleTime = 500 + 200 := by
  decide

/-- C2 amended: when a poll finds the deadline strictly in the past (the
previous iteration overran), exactly one sample is emitted by that tick;
the deadline is resynchronized to `now + samplingInterval` exactly when
`now` is more than one interval past the pending deadline (in which case
the whole backlog is dropped rather than emitted as a catch-up burst), and
otherwise it keeps the advanced value `nextSampleTime + samplingInterval`
with no sample dropped. -/
theorem tick_overrun_containment (s : SchedState) (now : Nat)
    (hI : 1 ≤ s.samplingInterval) (h : s.nextSampleTime < now) :
    (tick s now).1 = true ∧
    ((tick s now).2.nextSampleTime = now + s.samplingInterval ↔
      s.samplingInterval < now - s.nextSampleTime) ∧
    (now - s.nextSampleTime ≤ s.samplingInterval →
      (tick s now).2.nextSampleTime =
        s.nextSampleTime + s.samplingInterval) := by
  have hle : s.nextSampleTime ≤ now := Nat.le_of_lt h
  refine ⟨by simp [tick, hle], ?_, ?_⟩
  · by_cases h2 : s.nextSampleTime + s.samplingInterval < now <;>
      simp [tick, hle, h2] <;> omega
  · intro h3
    have h2 : ¬ s.nextSampleTime + s.samplingInterval < now := by omega
    simp [tick, hle, h2]

/-- Witness for `tick_overrun_containment` at interval 200, deadline 400,
now 900 (an overrun of 500 µs past the pending deadline). -/
theorem tick_overrun_containment_witness :
    1 ≤ (⟨200, 400⟩ : SchedState).samplingInterval ∧
    (⟨200, 400⟩ : SchedState).nextSampleTime < 900 ∧
    ((tick ⟨200, 400⟩ 900).1 = true ∧
    ((tick ⟨200, 400⟩ 900).2.nextSampleTime =
        900 + (⟨200, 400⟩ : SchedState).samplingInterval ↔
      (⟨200, 400⟩ : SchedState).samplingInterval <
        900 - (⟨200, 400⟩ : SchedState).nextSampleTime) ∧
    (900 - (⟨200, 400⟩ : SchedState).nextSampleTime ≤
        (⟨200, 400⟩ : SchedState).samplingInterval →
      (tick ⟨200, 400⟩ 900).2.nextSampleTime =
        (⟨200, 400⟩ : SchedState).nextSampleTime +
          (⟨200, 400⟩ : SchedState).samplingInterval)) :=
  ⟨by decide, by decide,
    tick_overrun_containment ⟨200, 400⟩ 900 (by decide) (by decide)⟩

/-- C3: overrun scenario at 5000 Hz.  `setup 5000` yields interval 200; from
deadline 200, a poll at `now = 0` emits nothing, the poll at `now = 1200`
(the iteration having taken 1200 µs) emits exactly one sample and
resynchronizes the deadline to 1200 + 200 = 1400; repeated polls at 1200
emit nothing further, so the stretch covering the deadlines
200/400/600/800/1000/1200 yields exactly one sample, not six. -/
theorem overrun_scenario_5000hz :
    setup 5000 200 = ⟨200, 200⟩ ∧
    tick ⟨200, 200⟩ 0 = (false, ⟨200, 200⟩) ∧
    tick ⟨200, 200⟩ 1200 = (true, ⟨200, 1400⟩) ∧
    runCount ⟨200, 200⟩ [0, 1200, 1200, 1200, 1200, 1200, 1200] = 1 ∧
    run ⟨200, 200⟩ [0, 1200, 1200, 1200, 1200, 1200, 1200] = ⟨200, 1400⟩ := by
  decide

/-- C7: zero-cost cadence scenario at 2000 Hz.  `setup 2000` yields interval
500; polling at `now = 0, 500, 1000, 1500` from deadline 0 emits exactly
4 samples, consuming the deadlines 0, 500, 1000, 1500 (each advance is
exactly 500), with intermediate deadlines 500, 1000, 1500 and final
`nextSampleTime = 2000`. -/
theorem cadence_scenario_2000hz :
    setup 2000 0 = ⟨500, 0⟩ ∧
    runCount ⟨500, 0⟩ [0, 500, 1000, 1500] = 4 ∧
    consumedDeadlines ⟨500, 0⟩ [0, 500, 1000, 1500] = [0, 500, 1000, 1500] ∧
    (run ⟨500, 0⟩ [0]).nextSampleTime = 500 ∧
    (run ⟨500, 0⟩ [0, 500]).nextSampleTime = 1000 ∧
    (run ⟨500, 0⟩ [0, 500, 1000]).nextSampleTime = 1500 ∧
    run ⟨500, 0⟩ [0, 500, 1000, 1500] = ⟨500, 2000⟩ := by
  decide

/-- A tick never changes the sampling interval. -/
theorem tick_interval_const (s : SchedState) (now : Nat) :
    (tick s now).2.samplingInterval = s.samplingInterval := by
  by_cases h : s.nextSampleTime ≤ now <;> simp [tick, h]

/-- A tick never decreases the deadline. -/
theorem tick_deadline_mono (s : SchedState) (now : Nat) :
    s.nextSampleTime ≤ (tick s now).2.nextSampleTime := by
  by_cases h : s.nextSampleTime ≤ now
  · by_cases h2 : s.nextSampleTime + s.samplingInterval < now <;>
      simp [tick, h, h2] <;> omega
  · simp [tick, h]

/-- An emitting tick strictly increases the deadline when the interval is
positive. -/
theorem tick_deadline_strict (s : SchedState) (now : Nat)
    (hI : 1 ≤ s.samplingInterval) (h : (tick s now).1 = true) :
    s.nextSampleTime < (tick s now).2.nextSampleTime := by
  by_cases hdue : s.nextSampleTime ≤ now
  · by_cases h2 : s.nextSampleTime + s.samplingInterval < now <;>
      simp [tick, hdue, h2] <;> omega
  · simp [tick, hdue] at h

/-- Every deadline consumed during a run is at least the starting
deadline. -/
theorem consumedDeadlines_lower_bound (ns : List Nat) :
    ∀ s : SchedState, ∀ x ∈ consumedDeadlines s ns, s.nextSampleTime ≤ x := by
  induction ns with
  | nil => intro s x hx; simp [consumedDeadlines] at hx
  | cons n ns ih =>
    intro s x hx
    by_cases h : (tick s n).1 = true
    · simp only [consumedDeadlines, if_pos h, List.mem_cons] at hx
      rcases hx with hx | hx
      · omega
      · exact Nat.le_trans (tick_deadline_mono s n) (ih (tick s n).2 x hx)
    · simp only [consumedDeadlines, if_neg h] at hx
      exact Nat.le_trans (tick_deadline_mono s n) (ih (tick s n).2 x hx)

/-- The deadlines consumed during a run are strictly increasing (interval
positive). -/
theorem consumedDeadlines_strict_mono (ns : List Nat) :
    ∀ s : SchedState, 1 ≤ s.samplingInterval →
      List.Pairwise (· < ·) (consumedDeadlines s ns) := by
  induction ns with
  | nil => intro s hI; simp [consumedDeadlines]
  | cons n ns ih =>
    intro s hI
    have hI2 : 1 ≤ (tick s n).2.samplingInterval := by
      rw [tick_interval_const]; exact hI
    by_cases h : (tick s n).1 = true
    · simp only [consumedDeadlines, if_pos h]
      refine List.pairwise_cons.2 ⟨?_, ih (tick s n).2 hI2⟩
      intro x hx
      have h1 := tick_deadline_strict s n hI h
      have h2 := consumedDeadlines_lower_bound ns (tick s n).2 x hx
      omega
    · simp only [consumedDeadlines, if_neg h]
      exact ih (tick s n).2 hI2

/-- C4: due/not-due contract and no duplicate emission.  With a positive
interval and non-decreasing poll instants, a poll with `now <
nextSampleTime` emits nothing and leaves the state unchanged, and the
deadlines consumed over the whole run are pairwise distinct (each deadline
value triggers an emission at most once). -/
theorem tick_no_duplicate_emission (s : SchedState) (ns : List Nat)
    (hI : 1 ≤ s.samplingInterval) (hmono : List.Chain' (· ≤ ·) ns) :
    (∀ now : Nat, now < s.nextSampleTime → tick s now = (false, s)) ∧
    List.Pairwise (· ≠ ·) (consumedDeadlines s ns) := by
  constructor
  · intro now hlt
    have h : ¬ s.nextSampleTime ≤ now := by omega
    simp [tick, h]
  · exact (consumedDeadlines_strict_mono ns s hI).imp (fun h => Nat.ne_of_lt h)

/-- Witness for `tick_no_duplicate_emission`: interval 500, deadline 0,
polls at 0, 250, 500, 1200. -/
theorem tick_no_duplicate_emission_witness :
    1 ≤ (⟨500, 0⟩ : SchedState).samplingInterval ∧
    List.Chain' (· ≤ ·) ([0, 250, 500, 1200] : List Nat) ∧
    ((∀ now : Nat, now < (⟨500, 0⟩ : SchedState).nextSampleTime →
        tick ⟨500, 0⟩ now = (false, ⟨500, 0⟩)) ∧
    List.Pairwise (· ≠ ·) (consumedDeadlines ⟨500, 0⟩ [0, 250, 500, 1200])) :=
  ⟨by decide, by simp [List.chain'_cons],
    tick_no_duplicate_emission ⟨500, 0⟩ [0, 250, 500, 1200] (by decide)
      (by simp [List.chain'_cons])⟩

/-- The modulus of the 32-bit free-running microsecond clock
(`unsigned long` on the target), 2^32. -/
def u32Mod : Nat := 4294967296

/-- One pass of the drift-compensated `loop()` (src/unnamed/part_002,
lines 128-147) with 32-bit `unsigned long` arithmetic made explicit: the
due test `currentTime >= nextSampleTime` and the drift check
`currentTime > nextSampleTime` are the plain integer comparisons the code
performs, and the additions reduce modulo 2^32 as `unsigned long` addition
does.  All stored values are below 2^32. -/
def tick32 (s : SchedState) (now : Nat) : Bool × SchedState :=
  if s.nextSampleTime ≤ now then
    (true, ⟨s.samplingInterval,
      if (s.nextSampleTime + s.samplingInterval) % u32Mod < now then
        (now + s.samplingInterval) % u32Mod
      else
        (s.nextSampleTime + s.samplingInterval) % u32Mod⟩)
  else
    (false, s)

/-- Modelled from the spec: the wraparound-safe due comparison that §4.1
and §7 require (comparison "in the clock's modular arithmetic", i.e.
unsigned-subtraction semantics: the sample is due when the 32-bit
difference `now - nextSampleTime`, interpreted as a signed 32-bit value,
is non-negative).  No such comparison appears in the drift-compensated
sketch; src/unnamed/part_001 line 20 uses the idiom for its busy-wait. -/
def dueModular (now deadline : Nat) : Bool :=
  (now + u32Mod - deadline % u32Mod) % u32Mod < 2147483648

/-- C5: the code's due test is not wraparound-safe.  With interval 200 and
a deadline that wrapped to 100, a poll at `now = 4294967000` (296 before
the wrap point) finds a deadline that modular arithmetic places 396 µs in
the future — `dueModular` reports not due — yet the code's plain
comparison deems the sample long overdue: it emits immediately and
resynchronizes the deadline to `now + interval`, a spurious emission and
multi-period jump caused purely by clock wraparound. -/
theorem wraparound_due_test_unsafe :
    (4294967000 + u32Mod - 100 % u32Mod) % u32Mod = 4294966900 ∧
    (100 + u32Mod - 4294967000 % u32Mod) % u32Mod = 396 ∧
    dueModular 4294967000 100 = false ∧
    tick32 ⟨200, 100⟩ 4294967000 = (true, ⟨200, 4294967200⟩) := by
  decide

/-- The binary little-endian encoder of the drift-compensated sketch
(src/unnamed/part_002, lines 134-138): `Serial.write(value & 0xFF)` then
`Serial.write((value >> 8) & 0xFF)`. -/
def encodeBinaryLE (v : Nat) : List Nat :=
  [v &&& 255, (v >>> 8) &&& 255]

/-- Decoder from the spec's words: reconstructs `low | (high << 8)` from a
two-byte frame. -/
def decodeBinaryLE : List Nat → Nat
  | [lo, hi] => lo ||| (hi <<< 8)
  | _ => 0

/-- C6: binary encode round-trip.  For every sample value `v ≤ 65535` the
encoder produces exactly the two bytes `v % 256` (low) then `v / 256`
(high, masked to a byte), and decoding `low | (high << 8)` recovers `v`. -/
theorem binary_roundtrip (v : Nat) (h : v ≤ 65535) :
    encodeBinaryLE v = [v % 256, (v / 256) % 256] ∧
    decodeBinaryLE (encodeBinaryLE v) = v := by
  have hlo : v &&& 255 = v % 256 := by
    have := Nat.and_pow_two_sub_one_eq_mod v 8
    norm_num at this
    exact this
  have hsh : v >>> 8 = v / 256 := by
    have := Nat.shiftRight_eq_div_pow v 8
    norm_num at this
    exact this
  have hdivlt : v / 256 < 256 := by omega
  have hhi : (v >>> 8) &&& 255 = (v / 256) % 256 := by
    rw [hsh]
    have := Nat.and_pow_two_sub_one_eq_mod (v / 256) 8
    norm_num at this
    exact this
  have h256 : v % 256 < 2 ^ 8 := by norm_num; omega
  refine ⟨by simp [encodeBinaryLE, hlo, hhi], ?_⟩
  have henc : encodeBinaryLE v = [v % 256, v / 256] := by
    simp [encodeBinaryLE, hlo, hhi, Nat.mod_eq_of_lt hdivlt]
  rw [henc]
  simp only [decodeBinaryLE]
  rw [Nat.shiftLeft_eq, Nat.lor_comm, Nat.mul_comm (v / 256) (2 ^ 8),
    ← Nat.mul_add_lt_is_or h256 (v / 256)]
  norm_num
  omega

/-- Witness for `binary_roundtrip` at the 10-bit ADC value 1023. -/
theorem binary_roundtrip_witness :
    1023 ≤ 65535 ∧
    (encodeBinaryLE 1023 = [1023 % 256, (1023 / 256) % 256] ∧
    decodeBinaryLE (encodeBinaryLE 1023) = 1023) :=
  ⟨by decide, binary_roundtrip 1023 (by decide)⟩

/-- The error the spec's taxonomy (§7) assigns to an invalid sampling
frequency. -/
inductive ConfigurationError where
  | invalidFrequency
deriving DecidableEq, Repr

/-- Modelled from the spec's words, for comparison with the source
`setup`: startup that fails fatally with `ConfigurationError` whenever
the derived `samplingIntervalMicros` equals 0, and otherwise yields the
scheduler state.  No such validation exists anywhere in the source. -/
def setupChecked (f : Nat) (t0 : Nat) :
    Except ConfigurationError SchedState :=
  if 1000000 / f = 0 then Except.error ConfigurationError.invalidFrequency
  else Except.ok ⟨1000000 / f, t0⟩

/-- C8 counterexample.  At 2 MHz the derived interval is 0; the spec-side
`setupChecked` fails with `ConfigurationError`, but the source `setup`
performs no validation: it succeeds, producing a state with
`samplingInterval = 0`, and the very next poll already emits. -/
theorem setup_accepts_zero_interval :
    setup 2000000 0 = ⟨0, 0⟩ ∧
    setupChecked 2000000 0 =
      Except.error ConfigurationError.invalidFrequency ∧
    (tick (setup 2000000 0) 0).1 = true :=
  ⟨rfl, rfl, rfl⟩

/-- C8 amended: startup never fails.  `setup` unconditionally derives
`samplingInterval = 1000000 / f` and initializes the deadline; a frequency
above 1000000 Hz yields interval 0 and is accepted silently, after which
every poll at or past the deadline emits and leaves the deadline at `now`
(so every subsequent poll is due again).  No `ConfigurationError` is
raised for any frequency. -/
theorem setup_no_validation (f t0 now : Nat) (hf : 1000000 < f) :
    (setup f t0).samplingInterval = 0 ∧
    (setup f t0).nextSampleTime = t0 ∧
    ((setup f t0).nextSampleTime ≤ now →
      (tick (setup f t0) now).1 = true ∧
      (tick (setup f t0) now).2.nextSampleTime ≤ now) := by
  have hz : 1000000 / f = 0 := Nat.div_eq_of_lt hf
  refine ⟨hz, rfl, ?_⟩
  intro hdue
  simp only [setup, hz] at hdue ⊢
  by_cases h2 : t0 < now
  · simp [tick, hdue, h2]
  · simp [tick, hdue, h2]

/-- Witness for `setup_no_validation` at 2 MHz, startup instant 0,
poll instant 7. -/
theorem setup_no_validation_witness :
    1000000 < 2000000 ∧
    ((setup 2000000 0).samplingInterval = 0 ∧
    (setup 2000000 0).nextSampleTime = 0 ∧
    ((setup 2000000 0).nextSampleTime ≤ 7 →
      (tick (setup 2000000 0) 7).1 = true ∧
      (tick (setup 2000000 0) 7).2.nextSampleTime ≤ 7)) :=
  ⟨by decide, setup_no_validation 2000000 0 7 (by decide)⟩

/-- ASCII character of a single decimal digit, as Arduino's
`Print::printNumber` renders one (the digit plus the code of `0`). -/
def digitChar (d : Nat) : Char := Char.ofNat (48 + d)

/-- Decimal digits of `n`, most significant first, as the repeated
divide-by-ten loop of Arduino's `Print::printNumber` produces them
(always at least one digit; `0` renders as the single digit 0).  This is
what `Serial.print` of an integer emits for the timestamped sketch
(src/unnamed/part_002, lines 26-36). -/
def decDigitsGo (n : Nat) (acc : List Nat) : List Nat :=
  if n < 10 then n :: acc
  else decDigitsGo (n / 10) (n % 10 :: acc)
termination_by n
decreasing_by
  exact Nat.div_lt_self (by omega) (by omega)

/-- Decimal digits of `n`, most significant first. -/
def decDigits (n : Nat) : List Nat := decDigitsGo n []

theorem decDigitsGo_lt (n : Nat) (acc : List Nat) (h : n < 10) :
    decDigitsGo n acc = n :: acc := by
  rw [decDigitsGo]
  simp [h]

theorem decDigitsGo_ge (n : Nat) (acc : List Nat) (h : ¬ n < 10) :
    decDigitsGo n acc = decDigitsGo (n / 10) (n % 10 :: acc) := by
  rw [decDigitsGo]
  simp [h]

theorem decDigitsGo_append (n : Nat) :
    ∀ acc : List Nat, decDigitsGo n acc = decDigitsGo n [] ++ acc := by
  induction n using Nat.strong_induction_on with
  | _ n ih =>
    intro acc
    by_cases h : n < 10
    · rw [decDigitsGo_lt n acc h, decDigitsGo_lt n [] h]
      rfl
    · have hlt : n / 10 < n := Nat.div_lt_self (by omega) (by omega)
      rw [decDigitsGo_ge n acc h, decDigitsGo_ge n [] h,
        ih _ hlt (n % 10 :: acc), ih _ hlt [n % 10], List.append_assoc]
      rfl

theorem decDigits_def (n : Nat) :
    decDigits n = if n < 10 then [n] else decDigits (n / 10) ++ [n % 10] := by
  by_cases h : n < 10
  · rw [decDigits, decDigitsGo_lt n [] h, if_pos h]
  · rw [decDigits, decDigitsGo_ge n [] h, if_neg h]
    exact decDigitsGo_append (n / 10) [n % 10]

theorem decDigits_lt_ten (n : Nat) : ∀ d ∈ decDigits n, d < 10 := by
  induction n using Nat.strong_induction_on with
  | _ n ih =>
    rw [decDigits_def]
    by_cases h : n < 10
    · simp [h]
    · simp only [if_neg h, List.mem_append, List.mem_singleton]
      intro d hd
      rcases hd with hd | hd
      · exact ih (n / 10) (Nat.div_lt_self (by omega) (by omega)) d hd
      · omega

theorem decDigits_ne_nil (n : Nat) : decDigits n ≠ [] := by
  rw [decDigits_def]
  by_cases h : n < 10 <;> simp [h]

/-- The digits of `n` fold back to `n` under `a ↦ 10 a + d`. -/
theorem decDigits_value (n : Nat) :
    (decDigits n).foldl (fun a d => 10 * a + d) 0 = n := by
  induction n using Nat.strong_induction_on with
  | _ n ih =>
    rw [decDigits_def]
    by_cases h : n < 10
    · simp [h]
    · simp only [if_neg h, List.foldl_append]
      rw [ih (n / 10) (Nat.div_lt_self (by omega) (by omega))]
      simp only [List.foldl_cons, List.foldl_nil]
      omega

/-- Characters emitted by `Serial.print` for the unsigned integer `n`. -/
def printNumberChars (n : Nat) : List Char := (decDigits n).map digitChar

/-- The timestamped text-line frame of the first sketch of
src/unnamed/part_002 (lines 26-36): `Serial.print(timestamp)`,
`Serial.print(",")`, `Serial.println(analogValue)`; Arduino's `println`
terminates the line with the two characters CR LF. -/
def encodeTextTimestamp (ts v : Nat) : List Char :=
  printNumberChars ts ++ [','] ++ printNumberChars v ++ ['\r', '\n']

/-- Decimal value of a run of ASCII digit characters. -/
def parseDecChars (cs : List Char) : Nat :=
  cs.foldl (fun a c => 10 * a + (c.toNat - 48)) 0

/-- Receiver-side decoding of one timestamped text-line frame: a non-empty
run of digits, a comma, a non-empty run of digits, then exactly the line
terminator. -/
def parseFrame (cs : List Char) : Option (Nat × Nat) :=
  if (cs.dropWhile Char.isDigit).head? = some ',' then
    if ((cs.dropWhile Char.isDigit).tail.dropWhile Char.isDigit) =
        ['\r', '\n'] then
      if (cs.takeWhile Char.isDigit).isEmpty then none
      else if ((cs.dropWhile Char.isDigit).tail.takeWhile
          Char.isDigit).isEmpty then none
      else some (parseDecChars (cs.takeWhile Char.isDigit),
        parseDecChars ((cs.dropWhile Char.isDigit).tail.takeWhile
          Char.isDigit))
    else none
  else none

theorem digitChar_toNat (d : Nat) (h : d < 10) :
    (digitChar d).toNat = 48 + d := by
  interval_cases d <;> decide

theorem digitChar_isDigit (d : Nat) (h : d < 10) :
    (digitChar d).isDigit = true := by
  interval_cases d <;> decide

theorem takeWhile_append_all {α : Type} (p : α → Bool) :
    ∀ (xs ys : List α), (∀ x ∈ xs, p x = true) →
      (xs ++ ys).takeWhile p = xs ++ ys.takeWhile p := by
  intro xs ys h
  induction xs with
  | nil => rfl
  | cons x xs ih =>
    have hx : p x = true := h x (List.mem_cons_self x xs)
    simp only [List.cons_append, List.takeWhile_cons, hx, if_true]
    rw [ih (fun y hy => h y (List.mem_cons_of_mem x hy))]

theorem dropWhile_append_all {α : Type} (p : α → Bool) :
    ∀ (xs ys : List α), (∀ x ∈ xs, p x = true) →
      (xs ++ ys).dropWhile p = ys.dropWhile p := by
  intro xs ys h
  induction xs with
  | nil => rfl
  | cons x xs ih =>
    have hx : p x = true := h x (List.mem_cons_self x xs)
    simp only [List.cons_append, List.dropWhile_cons, hx, if_true]
    exact ih (fun y hy => h y (List.mem_cons_of_mem x hy))

theorem printNumberChars_all_digit (n : Nat) :
    ∀ c ∈ printNumberChars n, c.isDigit = true := by
  intro c hc
  rcases List.mem_map.1 hc with ⟨d, hd, rfl⟩
  exact digitChar_isDigit d (decDigits_lt_ten n d hd)

theorem parseDecChars_printNumber (n : Nat) :
    parseDecChars (printNumberChars n) = n := by
  have key : ∀ (ds : List Nat), (∀ d ∈ ds, d < 10) → ∀ a : Nat,
      (ds.map digitChar).foldl (fun x c => 10 * x + (c.toNat - 48)) a =
        ds.foldl (fun x d => 10 * x + d) a := by
    intro ds
    induction ds with
    | nil => intro h a; rfl
    | cons d ds ih =>
      intro h a
      have hd : d < 10 := h d (List.mem_cons_self d ds)
      simp only [List.map_cons, List.foldl_cons,
        digitChar_toNat d hd]
      rw [show 48 + d - 48 = d from by omega]
      exact ih (fun y hy => h y (List.mem_cons_of_mem d hy)) (10 * a + d)
  unfold parseDecChars printNumberChars
  rw [key (decDigits n) (decDigits_lt_ten n) 0]
  exact decDigits_value n

/-- C9: timestamped text-line frame.  The encoder emits exactly the ASCII
decimal digit characters of `timestamp_ms`, the separator comma, the ASCII
decimal digit characters of the value, and the line terminator, and
nothing else; decoding the frame recovers exactly `(timestamp, value)`. -/
theorem text_timestamp_frame (ts v : Nat) :
    encodeTextTimestamp ts v =
      (decDigits ts).map digitChar ++ [','] ++
        (decDigits v).map digitChar ++ ['\r', '\n'] ∧
    (∀ c ∈ printNumberChars ts, c.isDigit = true) ∧
    (∀ c ∈ printNumberChars v, c.isDigit = true) ∧
    parseFrame (encodeTextTimestamp ts v) = some (ts, v) := by
  refine ⟨rfl, printNumberChars_all_digit ts, printNumberChars_all_digit v, ?_⟩
  have hts := printNumberChars_all_digit ts
  have hv := printNumberChars_all_digit v
  have henc : encodeTextTimestamp ts v =
      printNumberChars ts ++ (',' :: (printNumberChars v ++ ['\r', '\n'])) := by
    simp [encodeTextTimestamp]
  have hcomma : Char.isDigit ',' = false := by decide
  have hcr : Char.isDigit '\r' = false := by decide
  have hdrop1 : (encodeTextTimestamp ts v).dropWhile Char.isDigit =
      ',' :: (printNumberChars v ++ ['\r', '\n']) := by
    rw [henc, dropWhile_append_all Char.isDigit _ _ hts,
      List.dropWhile_cons]
    simp [hcomma]
  have htake1 : (encodeTextTimestamp ts v).takeWhile Char.isDigit =
      printNumberChars ts := by
    rw [henc, takeWhile_append_all Char.isDigit _ _ hts,
      List.takeWhile_cons]
    simp [hcomma]
  have hdrop2 : (printNumberChars v ++ ['\r', '\n']).dropWhile Char.isDigit =
      ['\r', '\n'] := by
    rw [dropWhile_append_all Char.isDigit _ _ hv, List.dropWhile_cons]
    simp [hcr]
  have htake2 : (printNumberChars v ++ ['\r', '\n']).takeWhile Char.isDigit =
      printNumberChars v := by
    rw [takeWhile_append_all Char.isDigit _ _ hv, List.takeWhile_cons]
    simp [hcr]
  have hne1 : (printNumberChars ts).isEmpty = false := by
    rcases List.exists_cons_of_ne_nil
      (fun hnil => decDigits_ne_nil ts (List.map_eq_nil.1 hnil) :
        printNumberChars ts ≠ []) with ⟨a, l, hal⟩
    simp [hal]
  have hne2 : (printNumberChars v).isEmpty = false := by
    rcases List.exists_cons_of_ne_nil
      (fun hnil => decDigits_ne_nil v (List.map_eq_nil.1 hnil) :
        printNumberChars v ≠ []) with ⟨a, l, hal⟩
    simp [hal]
  rw [parseFrame, hdrop1, htake1]
  simp [List.head?_cons, List.tail_cons, hdrop2, htake2, hne1, hne2,
    parseDecChars_printNumber]
